import Mathlib

/-!
# Verification of the oni provider-resolution subsystem

Shallow embedding of the provider subsystem of the `oni` anime CLI
(Go sources, `providers` package: the AllAnime multi-mirror pipeline,
the AniWorld provider and the on-disk provider ID cache), together with
proofs settling the frozen claims about it.

Strings manipulated byte-wise by the Go code are modelled as `List Char`;
quality maps (`map[string]string`) as association lists; network effects
as explicit oracle parameters.
-/

namespace Oni

instance {ε α : Type} [DecidableEq ε] [DecidableEq α] : DecidableEq (Except ε α) := fun a b =>
  match a, b with
  | .error e1, .error e2 =>
    if h : e1 = e2 then .isTrue (h ▸ rfl)
    else .isFalse (fun hc => h (Except.error.inj hc))
  | .ok a1, .ok a2 =>
    if h : a1 = a2 then .isTrue (h ▸ rfl)
    else .isFalse (fun hc => h (Except.ok.inj hc))
  | .error _, .ok _ => .isFalse (fun hc => Except.noConfusion hc)
  | .ok _, .error _ => .isFalse (fun hc => Except.noConfusion hc)

/-! ## Generic association-list operations

Go maps and INI key/value sections are modelled as association lists with
first-match lookup and replace-first-or-append update (Go maps have unique
keys, so the two views agree on every map the code builds). -/

def alookup {α β : Type} [DecidableEq α] : List (α × β) → α → Option β
  | [], _ => none
  | (k, v) :: rest, a => if k = a then some v else alookup rest a

def aupdate {α β : Type} [DecidableEq α] : List (α × β) → α → β → List (α × β)
  | [], k, v => [(k, v)]
  | (k', v') :: rest, k, v =>
    if k' = k then (k, v) :: rest else (k', v') :: aupdate rest k v

theorem alookup_aupdate_self {α β : Type} [DecidableEq α]
    (l : List (α × β)) (k : α) (v : β) : alookup (aupdate l k v) k = some v := by
  induction l with
  | nil => simp [aupdate, alookup]
  | cons hd tl ih =>
    obtain ⟨k', v'⟩ := hd
    by_cases h : k' = k
    · simp [aupdate, h, alookup]
    · simp [aupdate, h, alookup, ih]

theorem alookup_mem {α β : Type} [DecidableEq α] :
    ∀ (l : List (α × β)) (k : α) (v : β), alookup l k = some v → (k, v) ∈ l
  | [], _, _, h => by simp [alookup] at h
  | (k', v') :: rest, k, v, h => by
    rw [alookup] at h
    by_cases hk : k' = k
    · rw [if_pos hk] at h
      subst hk
      obtain rfl : v' = v := by simpa using h
      exact List.mem_cons_self _ _
    · rw [if_neg hk] at h
      exact List.mem_cons_of_mem _ (alookup_mem rest k v h)

theorem alookup_isSome_of_key_mem {α β : Type} [DecidableEq α] :
    ∀ (l : List (α × β)) (k : α), k ∈ l.map Prod.fst → ∃ v, alookup l k = some v
  | [], k, h => by simp at h
  | (k', v') :: rest, k, h => by
    by_cases hk : k' = k
    · exact ⟨v', by simp [alookup, hk]⟩
    · have : k ∈ rest.map Prod.fst := by
        simp only [List.map_cons, List.mem_cons] at h
        exact h.resolve_left (fun he => hk he.symm)
      obtain ⟨v, hv⟩ := alookup_isSome_of_key_mem rest k this
      exact ⟨v, by simp [alookup, hk, hv]⟩

/-! ## The AllAnime substitution decoder

`AllAnimeProvider.decodeProviderID` walks the encoded string two bytes at a
time, mapping each two-character token through a fixed switch (unknown tokens
fall through unchanged), then runs
`strings.ReplaceAll(decoded, "/clock", "/clock.json")`. -/

/-- One two-character token of the Go switch in `decodeProviderID`; the
default branch passes the token through unchanged. -/
def decodeTok (a b : Char) : List Char :=
  if (a, b) = ('0', '1') then ['9']
  else if (a, b) = ('0', '8') then ['0']
  else if (a, b) = ('0', '5') then ['=']
  else if (a, b) = ('0', 'a') then ['2']
  else if (a, b) = ('0', 'b') then ['3']
  else if (a, b) = ('0', 'c') then ['4']
  else if (a, b) = ('0', '7') then ['?']
  else if (a, b) = ('0', '0') then ['8']
  else if (a, b) = ('5', 'c') then ['d']
  else if (a, b) = ('0', 'f') then ['7']
  else if (a, b) = ('5', 'e') then ['f']
  else if (a, b) = ('1', '7') then ['/']
  else if (a, b) = ('5', '4') then ['l']
  else if (a, b) = ('0', '9') then ['1']
  else if (a, b) = ('4', '8') then ['p']
  else if (a, b) = ('4', 'f') then ['w']
  else if (a, b) = ('0', 'e') then ['6']
  else if (a, b) = ('5', 'b') then ['c']
  else if (a, b) = ('5', 'd') then ['e']
  else if (a, b) = ('0', 'd') then ['5']
  else if (a, b) = ('5', '3') then ['k']
  else if (a, b) = ('1', 'e') then ['&']
  else if (a, b) = ('5', 'a') then ['b']
  else if (a, b) = ('5', '9') then ['a']
  else if (a, b) = ('4', 'a') then ['r']
  else if (a, b) = ('4', 'c') then ['t']
  else if (a, b) = ('4', 'e') then ['v']
  else if (a, b) = ('5', '7') then ['o']
  else if (a, b) = ('5', '1') then ['i']
  else [a, b]

/-- The fixed substitution table of `decodeProviderID`, as data. -/
def decodeTable : List ((Char × Char) × Char) :=
  [(('0', '1'), '9'), (('0', '8'), '0'), (('0', '5'), '='), (('0', 'a'), '2'),
   (('0', 'b'), '3'), (('0', 'c'), '4'), (('0', '7'), '?'), (('0', '0'), '8'),
   (('5', 'c'), 'd'), (('0', 'f'), '7'), (('5', 'e'), 'f'), (('1', '7'), '/'),
   (('5', '4'), 'l'), (('0', '9'), '1'), (('4', '8'), 'p'), (('4', 'f'), 'w'),
   (('0', 'e'), '6'), (('5', 'b'), 'c'), (('5', 'd'), 'e'), (('0', 'd'), '5'),
   (('5', '3'), 'k'), (('1', 'e'), '&'), (('5', 'a'), 'b'), (('5', '9'), 'a'),
   (('4', 'a'), 'r'), (('4', 'c'), 't'), (('4', 'e'), 'v'), (('5', '7'), 'o'),
   (('5', '1'), 'i')]

/-- The token-substitution loop of `decodeProviderID`: consume two characters
at a time, breaking when fewer than two remain (`if i+2 > len(encoded)`). -/
def substDecodeList : List Char → List Char
  | a :: b :: rest => decodeTok a b ++ substDecodeList rest
  | _ => []

def clockChars : List Char := ['/', 'c', 'l', 'o', 'c', 'k']

def clockJsonChars : List Char :=
  ['/', 'c', 'l', 'o', 'c', 'k', '.', 'j', 's', 'o', 'n']

/-- `strings.ReplaceAll(s, "/clock", "/clock.json")`: scan left to right; at
each position the next six characters are compared with `/clock`, a match is
replaced and the scan continues after it, otherwise the scan advances one
character. -/
def replaceClock : List Char → List Char
  | [] => []
  | c1 :: c2 :: c3 :: c4 :: c5 :: c6 :: rest =>
    if [c1, c2, c3, c4, c5, c6] = clockChars then
      clockJsonChars ++ replaceClock rest
    else
      c1 :: replaceClock (c2 :: c3 :: c4 :: c5 :: c6 :: rest)
  | c :: rest => c :: replaceClock rest

/-- Whether `/clock` occurs anywhere in the list (used to state where the
replacement fires). -/
def hasClock : List Char → Bool
  | c1 :: c2 :: c3 :: c4 :: c5 :: c6 :: rest =>
    decide ([c1, c2, c3, c4, c5, c6] = clockChars) ||
      hasClock (c2 :: c3 :: c4 :: c5 :: c6 :: rest)
  | _ => false

/-- `AllAnimeProvider.decodeProviderID`: token substitution followed by the
`/clock` → `/clock.json` replacement. -/
def decodeProviderID (encoded : List Char) : List Char :=
  replaceClock (substDecodeList encoded)

theorem substDecode_append :
    ∀ (l1 l2 : List Char), l1.length % 2 = 0 →
      substDecodeList (l1 ++ l2) = substDecodeList l1 ++ substDecodeList l2
  | [], l2, _ => by simp [substDecodeList]
  | [a], _, h => by simp at h
  | a :: b :: rest, l2, h => by
    have h2 : rest.length % 2 = 0 := by
      simp only [List.length_cons] at h
      omega
    simp only [List.cons_append, substDecodeList, List.append_eq,
      substDecode_append rest l2 h2, List.append_assoc]

theorem replaceClock_of_hasClock_false :
    ∀ (l : List Char), hasClock l = false → replaceClock l = l
  | [], _ => rfl
  | [c], _ => by simp [replaceClock]
  | [c1, c2], _ => by simp [replaceClock]
  | [c1, c2, c3], _ => by simp [replaceClock]
  | [c1, c2, c3, c4], _ => by simp [replaceClock]
  | [c1, c2, c3, c4, c5], _ => by simp [replaceClock]
  | c1 :: c2 :: c3 :: c4 :: c5 :: c6 :: rest, h => by
    simp only [hasClock, Bool.or_eq_false_iff, decide_eq_false_iff_not] at h
    simp only [replaceClock, if_neg h.1]
    rw [replaceClock_of_hasClock_false (c2 :: c3 :: c4 :: c5 :: c6 :: rest) h.2]

theorem replaceClock_single_occurrence :
    ∀ (a b : List Char), hasClock a = false →
      replaceClock (a ++ clockChars ++ b) = a ++ clockJsonChars ++ replaceClock b
  | [], b, _ => by
    simp [replaceClock, clockChars, clockJsonChars]
  | c :: a2, b, h => by
    have h2 : hasClock a2 = false := by
      rcases a2 with _ | ⟨x1, _ | ⟨x2, _ | ⟨x3, _ | ⟨x4, _ | ⟨x5, rest⟩⟩⟩⟩⟩
      · rfl
      · rfl
      · rfl
      · rfl
      · rfl
      · simp only [hasClock, Bool.or_eq_false_iff] at h
        exact h.2
    have htail := replaceClock_single_occurrence a2 b h2
    rcases a2 with _ | ⟨x1, _ | ⟨x2, _ | ⟨x3, _ | ⟨x4, _ | ⟨x5, rest⟩⟩⟩⟩⟩
    · simp [replaceClock, clockChars, clockJsonChars]
    · simp [replaceClock, clockChars, clockJsonChars]
    · simp [replaceClock, clockChars, clockJsonChars]
    · simp [replaceClock, clockChars, clockJsonChars]
    · simp [replaceClock, clockChars, clockJsonChars]
    · have hcond : ¬([c, x1, x2, x3, x4, x5] = clockChars) := by
        simp only [hasClock, Bool.or_eq_false_iff, decide_eq_false_iff_not] at h
        exact h.1
      have hexp : (c :: x1 :: x2 :: x3 :: x4 :: x5 :: rest) ++ clockChars ++ b =
          c :: x1 :: x2 :: x3 :: x4 :: x5 :: (rest ++ clockChars ++ b) := by simp
      rw [hexp]
      simp only [replaceClock]
      rw [if_neg hcond]
      rw [show replaceClock (x1 :: x2 :: x3 :: x4 :: x5 :: (rest ++ clockChars ++ b)) =
          (x1 :: x2 :: x3 :: x4 :: x5 :: rest) ++ clockJsonChars ++ replaceClock b by
        simpa using htail]
      simp

/-- C4: the substitution phase of `decodeProviderID` is a total function that
decodes an even-length input token by token: it distributes over even-length
splits, maps every token of the fixed table to that table's character, and
passes any unknown two-character token through unchanged. -/
theorem decoder_substitution_table_C4 :
    (∀ l1 l2 : List Char, l1.length % 2 = 0 →
      substDecodeList (l1 ++ l2) = substDecodeList l1 ++ substDecodeList l2) ∧
    (∀ e ∈ decodeTable, decodeTok e.1.1 e.1.2 = [e.2]) ∧
    (∀ a b : Char, (a, b) ∉ decodeTable.map Prod.fst → decodeTok a b = [a, b]) := by
  refine ⟨substDecode_append, by decide, ?_⟩
  intro a b h
  simp only [decodeTable, List.map_cons, List.map_nil, List.mem_cons,
    List.not_mem_nil, or_false] at h
  push_neg at h
  obtain ⟨h1, h2, h3, h4, h5, h6, h7, h8, h9, h10, h11, h12, h13, h14, h15,
    h16, h17, h18, h19, h20, h21, h22, h23, h24, h25, h26, h27, h28, h29⟩ := h
  simp only [decodeTok, if_neg h1, if_neg h2, if_neg h3, if_neg h4, if_neg h5,
    if_neg h6, if_neg h7, if_neg h8, if_neg h9, if_neg h10, if_neg h11,
    if_neg h12, if_neg h13, if_neg h14, if_neg h15, if_neg h16, if_neg h17,
    if_neg h18, if_neg h19, if_neg h20, if_neg h21, if_neg h22, if_neg h23,
    if_neg h24, if_neg h25, if_neg h26, if_neg h27, if_neg h28, if_neg h29]

theorem decoder_substitution_table_C4_witness :
    substDecodeList ("5b5453".data ++ "4f".data) =
      substDecodeList "5b5453".data ++ substDecodeList "4f".data ∧
    decodeTok 'z' 'z' = ['z', 'z'] :=
  ⟨decoder_substitution_table_C4.1 "5b5453".data "4f".data (by decide),
   decoder_substitution_table_C4.2.2 'z' 'z' (by decide)⟩

/-- C10: on an odd-length input, `decodeProviderID` silently discards the
final unpaired character: the result equals the decode of the input without
its last character, so that character never influences the output, and no
error occurs (the function is total). -/
theorem decoder_odd_length_C10 (l : List Char) (c : Char) (h : l.length % 2 = 0) :
    decodeProviderID (l ++ [c]) = decodeProviderID l := by
  unfold decodeProviderID
  rw [substDecode_append l [c] h]
  simp [substDecodeList]

theorem decoder_odd_length_C10_witness :
    decodeProviderID ("17".data ++ ['x']) = decodeProviderID "17".data :=
  decoder_odd_length_C10 "17".data 'x' (by decide)

/-- Whether the list ends with `/clock` (for stating the C5 counterexample). -/
def endsWithClock (l : List Char) : Bool :=
  decide (l.drop (l.length - 6) = clockChars)

/-- C5 counterexample: decoding `175b54575b534f` yields `/clockw`, which does
not end in `/clock`, yet `decodeProviderID` still inserts `.json` after the
interior `/clock`, producing `/clock.jsonw` — refuting the claim that a
decoded path not ending in `/clock` is returned with no `.json` insertion. -/
theorem clock_not_suffix_only_C5_counterexample :
    substDecodeList "175b54575b534f".data = "/clockw".data ∧
    endsWithClock (substDecodeList "175b54575b534f".data) = false ∧
    decodeProviderID "175b54575b534f".data = "/clock.jsonw".data := by
  refine ⟨by decide, by decide, ?_⟩
  decide

/-- C5 amended: `decodeProviderID` appends `.json` after every occurrence of
`/clock` in the decoded string (`strings.ReplaceAll` semantics), not only
after a trailing `/clock` suffix; a decoded path containing no `/clock`
anywhere is returned unchanged. -/
theorem clock_replacement_everywhere_C5 :
    (∀ s : List Char, hasClock (substDecodeList s) = false →
      decodeProviderID s = substDecodeList s) ∧
    (∀ s a b : List Char, substDecodeList s = a ++ clockChars ++ b →
      hasClock a = false → hasClock b = false →
      decodeProviderID s = a ++ clockJsonChars ++ b) := by
  constructor
  · intro s h
    exact replaceClock_of_hasClock_false _ h
  · intro s a b hdec ha hb
    unfold decodeProviderID
    rw [hdec, replaceClock_single_occurrence a b ha,
      replaceClock_of_hasClock_false b hb]

theorem clock_replacement_everywhere_C5_witness :
    decodeProviderID "175b54575b534f".data = [] ++ clockJsonChars ++ ['w'] ∧
    decodeProviderID "17".data = substDecodeList "17".data :=
  ⟨clock_replacement_everywhere_C5.2 "175b54575b534f".data [] ['w']
      (by decide) (by decide) (by decide),
   clock_replacement_everywhere_C5.1 "17".data (by decide)⟩

/-! ## The AllAnime multi-mirror merge (`extractLinks`)

`extractLinks` launches five mirror branches (`generateLinksForProvider` 1-5),
collects the five `(links, err)` results from a channel and merges into one
`allLinks` map every result with `err == nil && len(links) > 0`; if the merged
map is empty it fails with the NoLinksFound error
("no video links found: all providers failed"). -/

/-- The `(links, err)` pair one mirror branch sends on the result channel. -/
structure BranchResult where
  links : List (String × String)
  err : Option String
deriving DecidableEq

/-- `for quality, link := range result.links { allLinks[quality] = link }`. -/
def insertLinks (acc : List (String × String)) (m : List (String × String)) :
    List (String × String) :=
  m.foldl (fun acc2 kv => aupdate acc2 kv.1 kv.2) acc

/-- Merge one branch result: only branches with `err == nil` and a non-empty
map contribute. -/
def mergeStep (acc : List (String × String)) (r : BranchResult) :
    List (String × String) :=
  if r.err = none ∧ r.links ≠ [] then insertLinks acc r.links else acc

def mergeBranchResults (rs : List BranchResult) : List (String × String) :=
  rs.foldl mergeStep []

/-- Error outcomes of the AllAnime `GetVideoLink` pipeline, one per distinct
`fmt.Errorf` site. -/
inductive AAErr : Type
  | emptySourceUrls
  | noSourceUrlsInResponse
  | noLinksFound
  | noExtractedLinks
deriving DecidableEq

/-- The collection/merge tail of `AllAnimeProvider.extractLinks`. -/
def extractLinksMerge (rs : List BranchResult) : Except AAErr (List (String × String)) :=
  let allLinks := mergeBranchResults rs
  if allLinks = [] then .error .noLinksFound else .ok allLinks

theorem aupdate_mem {α β : Type} [DecidableEq α] :
    ∀ (l : List (α × β)) (k : α) (v : β) (kv : α × β),
      kv ∈ aupdate l k v → kv ∈ l ∨ kv = (k, v)
  | [], k, v, kv, h => by
    simp [aupdate] at h
    exact Or.inr h
  | (k', v') :: rest, k, v, kv, h => by
    rw [aupdate] at h
    by_cases hk : k' = k
    · rw [if_pos hk] at h
      rcases List.mem_cons.mp h with h1 | h2
      · exact Or.inr h1
      · exact Or.inl (List.mem_cons_of_mem _ h2)
    · rw [if_neg hk] at h
      rcases List.mem_cons.mp h with h1 | h2
      · exact Or.inl (h1 ▸ List.mem_cons_self _ _)
      · rcases aupdate_mem rest k v kv h2 with h3 | h3
        · exact Or.inl (List.mem_cons_of_mem _ h3)
        · exact Or.inr h3

theorem aupdate_ne_nil {α β : Type} [DecidableEq α] (l : List (α × β)) (k : α) (v : β) :
    aupdate l k v ≠ [] := by
  cases l with
  | nil => simp [aupdate]
  | cons hd tl =>
    obtain ⟨k', v'⟩ := hd
    rw [aupdate]
    by_cases hk : k' = k
    · simp [hk]
    · simp [hk]

theorem insertLinks_mem :
    ∀ (m acc : List (String × String)) (kv : String × String),
      kv ∈ insertLinks acc m → kv ∈ acc ∨ kv ∈ m
  | [], acc, kv, h => Or.inl h
  | e :: rest, acc, kv, h => by
    rw [show insertLinks acc (e :: rest) = insertLinks (aupdate acc e.1 e.2) rest from rfl] at h
    rcases insertLinks_mem rest (aupdate acc e.1 e.2) kv h with h1 | h1
    · rcases aupdate_mem acc e.1 e.2 kv h1 with h2 | h2
      · exact Or.inl h2
      · exact Or.inr (by simp [h2])
    · exact Or.inr (List.mem_cons_of_mem _ h1)

theorem insertLinks_ne_nil :
    ∀ (m acc : List (String × String)), acc ≠ [] ∨ m ≠ [] → insertLinks acc m ≠ []
  | [], acc, h => by
    rcases h with h | h
    · exact h
    · exact absurd rfl h
  | e :: rest, acc, _ => by
    rw [show insertLinks acc (e :: rest) = insertLinks (aupdate acc e.1 e.2) rest from rfl]
    exact insertLinks_ne_nil rest (aupdate acc e.1 e.2) (Or.inl (aupdate_ne_nil acc e.1 e.2))

theorem aupdate_of_key_not_mem {α β : Type} [DecidableEq α] :
    ∀ (l : List (α × β)) (k : α) (v : β), k ∉ l.map Prod.fst →
      aupdate l k v = l ++ [(k, v)]
  | [], _, _, _ => rfl
  | (k', v') :: rest, k, v, h => by
    have hk : k' ≠ k := by
      intro he
      exact h (by simp [he])
    have h2 : k ∉ rest.map Prod.fst := fun hm => h (by simp [hm])
    rw [aupdate, if_neg hk, aupdate_of_key_not_mem rest k v h2]
    simp

theorem insertLinks_of_fresh :
    ∀ (m acc : List (String × String)), (m.map Prod.fst).Nodup →
      (∀ k ∈ m.map Prod.fst, k ∉ acc.map Prod.fst) →
      insertLinks acc m = acc ++ m
  | [], acc, _, _ => by simp [insertLinks]
  | (k, v) :: rest, acc, hnodup, hfresh => by
    rw [show insertLinks acc ((k, v) :: rest) = insertLinks (aupdate acc k v) rest from rfl]
    have hk : k ∉ acc.map Prod.fst := hfresh k (by simp)
    rw [aupdate_of_key_not_mem acc k v hk]
    have hnodup2 : (rest.map Prod.fst).Nodup := by
      simpa using hnodup.of_cons
    have hfresh2 : ∀ q ∈ rest.map Prod.fst, q ∉ (acc ++ [(k, v)]).map Prod.fst := by
      intro q hq
      simp only [List.map_append, List.mem_append, List.map_cons, List.map_nil,
        List.mem_singleton]
      rintro (hqa | hqk)
      · exact hfresh q (by simp [hq]) hqa
      · rw [List.map_cons] at hnodup
        simp only [List.nodup_cons] at hnodup
        exact hnodup.1 (hqk ▸ hq)
    rw [insertLinks_of_fresh rest (acc ++ [(k, v)]) hnodup2 hfresh2]
    simp

theorem foldl_mergeStep_skip :
    ∀ (l : List BranchResult) (acc : List (String × String)),
      (∀ r ∈ l, r.links = []) → l.foldl mergeStep acc = acc
  | [], _, _ => rfl
  | r :: rest, acc, h => by
    have hr : r.links = [] := h r (by simp)
    have hstep : mergeStep acc r = acc := by
      rw [mergeStep, if_neg]
      rintro ⟨-, hne⟩
      exact hne hr
    rw [List.foldl_cons, hstep,
      foldl_mergeStep_skip rest acc (fun x hx => h x (List.mem_cons_of_mem _ hx))]

theorem foldl_mergeStep_eq_nil :
    ∀ (rs : List BranchResult) (acc : List (String × String)),
      rs.foldl mergeStep acc = [] ↔
        acc = [] ∧ ∀ r ∈ rs, ¬(r.err = none ∧ r.links ≠ [])
  | [], acc => by simp
  | r :: rest, acc => by
    rw [List.foldl_cons]
    by_cases hr : r.err = none ∧ r.links ≠ []
    · have hstep : mergeStep acc r = insertLinks acc r.links := by
        rw [mergeStep, if_pos hr]
      rw [hstep]
      constructor
      · intro h
        exact absurd ((foldl_mergeStep_eq_nil rest _).mp h).1
          (insertLinks_ne_nil r.links acc (Or.inr hr.2))
      · rintro ⟨-, hall⟩
        exact absurd hr (hall r (by simp))
    · have hstep : mergeStep acc r = acc := by rw [mergeStep, if_neg hr]
      rw [hstep, foldl_mergeStep_eq_nil rest acc]
      constructor
      · rintro ⟨ha, hall⟩
        refine ⟨ha, ?_⟩
        intro x hx
        rcases List.mem_cons.mp hx with h1 | h1
        · exact h1 ▸ hr
        · exact hall x h1
      · rintro ⟨ha, hall⟩
        exact ⟨ha, fun x hx => hall x (List.mem_cons_of_mem _ hx)⟩

theorem mergeBranchResults_mem (rs : List BranchResult) (kv : String × String)
    (h : kv ∈ mergeBranchResults rs) : ∃ r ∈ rs, kv ∈ r.links := by
  suffices haux : ∀ (l : List BranchResult) (acc : List (String × String)),
      kv ∈ l.foldl mergeStep acc → kv ∈ acc ∨ ∃ r ∈ l, kv ∈ r.links by
    rcases haux rs [] h with h1 | h1
    · simp at h1
    · exact h1
  intro l
  induction l with
  | nil =>
    intro acc hacc
    exact Or.inl hacc
  | cons r rest ih =>
    intro acc hacc
    rw [List.foldl_cons] at hacc
    rcases ih (mergeStep acc r) hacc with h1 | h1
    · rw [mergeStep] at h1
      by_cases hr : r.err = none ∧ r.links ≠ []
      · rw [if_pos hr] at h1
        rcases insertLinks_mem r.links acc kv h1 with h2 | h2
        · exact Or.inl h2
        · exact Or.inr ⟨r, by simp, h2⟩
      · rw [if_neg hr] at h1
        exact Or.inl h1
    · obtain ⟨x, hx, hkv⟩ := h1
      exact Or.inr ⟨x, List.mem_cons_of_mem _ hx, hkv⟩

/-- C2: if exactly one of the five branch results carries a non-empty map
with no error and the other four carry empty maps (no errors), the merge
succeeds with exactly that map; and for any five branch results, the
NoLinksFound error is produced if and only if every branch contributes
nothing (an error or an empty map). -/
theorem multi_mirror_merge_C2 (rs : List BranchResult) (m : List (String × String))
    (pre post : List BranchResult)
    (hlen : rs.length = 5)
    (hsplit : rs = pre ++ ⟨m, none⟩ :: post)
    (hm : m ≠ [])
    (hnodup : (m.map Prod.fst).Nodup)
    (hempty : ∀ r ∈ pre ++ post, r.links = []) :
    extractLinksMerge rs = .ok m ∧
    (∀ rs2 : List BranchResult, rs2.length = 5 →
      (extractLinksMerge rs2 = .error .noLinksFound ↔
        ∀ r ∈ rs2, r.err ≠ none ∨ r.links = [])) := by
  constructor
  · have hmerge : mergeBranchResults rs = m := by
      rw [mergeBranchResults, hsplit, List.foldl_append,
        foldl_mergeStep_skip pre [] (fun r hr => hempty r (List.mem_append_left _ hr)),
        List.foldl_cons]
      have hstep : mergeStep [] ⟨m, none⟩ = m := by
        rw [mergeStep, if_pos ⟨rfl, hm⟩]
        rw [insertLinks_of_fresh m [] hnodup (by simp)]
        simp
      rw [hstep,
        foldl_mergeStep_skip post m (fun r hr => hempty r (List.mem_append_right _ hr))]
    rw [extractLinksMerge]
    simp only [hmerge, if_neg hm]
  · intro rs2 _
    rw [extractLinksMerge]
    by_cases hnil : mergeBranchResults rs2 = []
    · simp only [hnil, if_pos rfl]
      rw [mergeBranchResults, foldl_mergeStep_eq_nil] at hnil
      constructor
      · intro _
        intro r hr
        have := hnil.2 r hr
        by_cases he : r.err = none
        · right
          by_contra hl
          exact this ⟨he, hl⟩
        · exact Or.inl he
      · intro _
        rfl
    · simp only [if_neg hnil]
      constructor
      · intro h
        exact absurd h (by simp)
      · intro hall
        exfalso
        apply hnil
        rw [mergeBranchResults, foldl_mergeStep_eq_nil]
        refine ⟨rfl, ?_⟩
        intro r hr
        rintro ⟨he, hl⟩
        rcases hall r hr with h1 | h1
        · exact h1 he
        · exact hl h1

theorem multi_mirror_merge_C2_witness :
    extractLinksMerge
      [⟨[("720", "u2")], none⟩, ⟨[], none⟩, ⟨[], none⟩, ⟨[], none⟩, ⟨[], none⟩] =
      .ok [("720", "u2")] :=
  (multi_mirror_merge_C2
    [⟨[("720", "u2")], none⟩, ⟨[], none⟩, ⟨[], none⟩, ⟨[], none⟩, ⟨[], none⟩]
    [("720", "u2")] [] [⟨[], none⟩, ⟨[], none⟩, ⟨[], none⟩, ⟨[], none⟩]
    rfl rfl (by decide) (by decide) (by decide)).1

/-! ## Quality selection (`selectQuality`) -/

/-- Models `strconv.Atoi` with its error discarded
(`qi, _ := strconv.Atoi(qualities[i])`): a syntactically invalid string
yields 0. 64-bit range clamping is not modelled (quality labels are small
resolution numbers). -/
def atoiZ (s : String) : Int :=
  match s.data with
  | [] => 0
  | '+' :: ds =>
    if ds ≠ [] ∧ ds.all Char.isDigit then
      (ds.foldl (fun a c => a * 10 + (c.toNat - '0'.toNat)) 0 : Nat)
    else 0
  | '-' :: ds =>
    if ds ≠ [] ∧ ds.all Char.isDigit then
      -((ds.foldl (fun a c => a * 10 + (c.toNat - '0'.toNat)) 0 : Nat) : Int)
    else 0
  | ds =>
    if ds.all Char.isDigit then
      (ds.foldl (fun a c => a * 10 + (c.toNat - '0'.toNat)) 0 : Nat)
    else 0

/-- Insertion step of the descending sort of quality labels
(`sort.Slice(qualities, func(i, j) { return qi > qj })`). -/
def insDesc (f : String → Int) (x : String) : List String → List String
  | [] => [x]
  | y :: ys => if f x > f y then x :: y :: ys else y :: insDesc f x ys

def isortDesc (f : String → Int) : List String → List String
  | [] => []
  | x :: xs => insDesc f x (isortDesc f xs)

/-- `AllAnimeProvider.selectQuality`: return the exact preferred-quality entry
when present, otherwise sort the keys descending by numeric value and return
the entry of the largest one (empty string for an empty map). -/
def selectQuality (links : List (String × String)) (preferredQuality : String) :
    String :=
  match alookup links preferredQuality with
  | some link => link
  | none =>
    match isortDesc atoiZ (links.map Prod.fst) with
    | [] => ""
    | q :: _ => (alookup links q).getD ""

theorem mem_insDesc (f : String → Int) (x a : String) :
    ∀ (l : List String), a ∈ insDesc f x l → a = x ∨ a ∈ l
  | [], h => by simpa [insDesc] using h
  | y :: ys, h => by
    rw [insDesc] at h
    by_cases hc : f x > f y
    · rw [if_pos hc] at h
      simpa using h
    · rw [if_neg hc] at h
      rcases List.mem_cons.mp h with h1 | h1
      · exact Or.inr (by simp [h1])
      · rcases mem_insDesc f x a ys h1 with h2 | h2
        · exact Or.inl h2
        · exact Or.inr (List.mem_cons_of_mem _ h2)

theorem mem_isortDesc (f : String → Int) (a : String) :
    ∀ (l : List String), a ∈ isortDesc f l → a ∈ l
  | [], h => by simpa [isortDesc] using h
  | x :: xs, h => by
    rw [isortDesc] at h
    rcases mem_insDesc f x a (isortDesc f xs) h with h1 | h1
    · simp [h1]
    · exact List.mem_cons_of_mem _ (mem_isortDesc f a xs h1)

theorem insDesc_ne_nil (f : String → Int) (x : String) (l : List String) :
    insDesc f x l ≠ [] := by
  cases l with
  | nil => simp [insDesc]
  | cons y ys =>
    rw [insDesc]
    by_cases hc : f x > f y
    · simp [hc]
    · simp [hc]

theorem selectQuality_mem (links : List (String × String)) (q : String)
    (hne : links ≠ []) :
    ∃ k v, (k, v) ∈ links ∧ selectQuality links q = v := by
  rw [selectQuality]
  cases hl : alookup links q with
  | some link => exact ⟨q, link, alookup_mem links q link hl, rfl⟩
  | none =>
    cases hs : isortDesc atoiZ (links.map Prod.fst) with
    | nil =>
      exfalso
      cases links with
      | nil => exact hne rfl
      | cons e rest =>
        rw [List.map_cons, isortDesc] at hs
        exact insDesc_ne_nil atoiZ e.1 _ hs
    | cons q0 t =>
      have hq0 : q0 ∈ links.map Prod.fst :=
        mem_isortDesc atoiZ q0 _ (hs ▸ List.mem_cons_self q0 t)
      obtain ⟨v, hv⟩ := alookup_isSome_of_key_mem links q0 hq0
      exact ⟨q0, v, alookup_mem links q0 v hv, by simp [hv]⟩

/-- C3: over the merged map `{480: u1, 720: u2, 1080: u3}`, requesting "720"
returns exactly u2 (exact string match); requesting the absent "2160"
returns u3 (largest numeric label present); requesting "" also returns u3 —
there is no nearest-quality matching. -/
theorem quality_selection_C3 (u1 u2 u3 : String) :
    selectQuality [("480", u1), ("720", u2), ("1080", u3)] "720" = u2 ∧
    selectQuality [("480", u1), ("720", u2), ("1080", u3)] "2160" = u3 ∧
    selectQuality [("480", u1), ("720", u2), ("1080", u3)] "" = u3 := by
  refine ⟨?_, ?_, ?_⟩ <;> rfl

/-! ## The AllAnime `GetVideoLink` tail -/

structure VideoData where
  videoURL : String
  subtitleURLs : List String
  referer : String
deriving DecidableEq

def allAnimeRefr : String := "https://allanime.to"

/-- The data path of `AllAnimeProvider.GetVideoLink` after the episode-source
fetch, over oracles for the network-dependent steps: `sourceUrls` is the raw
source blob (rejected when empty or the literal "null"), `rmatches` the
(sourceName, encoded id) pairs the normalization + regex scan of
`extractLinks` produced (rejected when empty), `brs` the five mirror branch
outcomes. On success the video URL is `selectQuality` of the merged map and
the referer is the fixed AllAnime referer. -/
def allAnimeGetVideoLink (sourceUrls : List Char) (rmatches : List (String × String))
    (brs : List BranchResult) (quality : String) : Except AAErr VideoData :=
  if sourceUrls = [] ∨ sourceUrls = "null".data then .error .emptySourceUrls
  else if rmatches = [] then .error .noSourceUrlsInResponse
  else
    match extractLinksMerge brs with
    | .error e => .error e
    | .ok links =>
      if links = [] then .error .noExtractedLinks
      else .ok ⟨selectQuality links quality, [], allAnimeRefr⟩

/-- C6 counterexample: a mirror branch whose regex capture produced an empty
URL string for quality "720" makes `GetVideoLink` succeed with an empty
`videoURL`, refuting the claim that `videoURL` is non-empty on every
success. -/
theorem video_url_nonempty_C6_counterexample :
    allAnimeGetVideoLink "x".data [("Luf-mp4", "id")]
      [⟨[("720", "")], none⟩, ⟨[], none⟩, ⟨[], none⟩, ⟨[], none⟩, ⟨[], none⟩]
      "720" = .ok ⟨"", [], allAnimeRefr⟩ ∧
    ("" : String).length = 0 := by
  exact ⟨rfl, rfl⟩

/-- C6 amended: on success the returned `videoURL` is one of the URLs
contributed by the mirror branches, hence non-empty whenever every URL the
branches contributed is non-empty (the unamended claim fails because an
upstream `link":""` field flows through the merge unchanged). -/
theorem video_url_nonempty_C6 (sourceUrls : List Char)
    (rmatches : List (String × String)) (brs : List BranchResult)
    (quality : String) (vd : VideoData)
    (hok : allAnimeGetVideoLink sourceUrls rmatches brs quality = .ok vd)
    (hne : ∀ r ∈ brs, ∀ kv ∈ r.links, kv.2 ≠ "") :
    vd.videoURL ≠ "" := by
  rw [allAnimeGetVideoLink] at hok
  by_cases h1 : sourceUrls = [] ∨ sourceUrls = "null".data
  · rw [if_pos h1] at hok
    exact absurd hok (by simp)
  rw [if_neg h1] at hok
  by_cases h2 : rmatches = []
  · rw [if_pos h2] at hok
    exact absurd hok (by simp)
  rw [if_neg h2] at hok
  cases hx : extractLinksMerge brs with
  | error e =>
    rw [hx] at hok
    dsimp only at hok
    exact absurd hok (by simp)
  | ok links =>
    rw [hx] at hok
    dsimp only at hok
    by_cases h3 : links = []
    · rw [if_pos h3] at hok
      exact absurd hok (by simp)
    rw [if_neg h3] at hok
    have hvd : vd = ⟨selectQuality links quality, [], allAnimeRefr⟩ := by
      simpa using hok.symm
    have hlinks : links = mergeBranchResults brs := by
      rw [extractLinksMerge] at hx
      by_cases hm : mergeBranchResults brs = []
      · rw [if_pos hm] at hx
        exact absurd hx (by simp)
      · rw [if_neg hm] at hx
        simpa using hx.symm
    obtain ⟨k, v, hkv, hsel⟩ := selectQuality_mem links quality h3
    obtain ⟨r, hr, hkvr⟩ := mergeBranchResults_mem brs (k, v) (hlinks ▸ hkv)
    have hvne : v ≠ "" := hne r hr (k, v) hkvr
    rw [hvd]
    simpa [hsel] using hvne

theorem video_url_nonempty_C6_witness :
    (⟨"u", [], allAnimeRefr⟩ : VideoData).videoURL ≠ "" :=
  video_url_nonempty_C6 "x".data [("Luf-mp4", "id")]
    [⟨[("720", "u")], none⟩, ⟨[], none⟩, ⟨[], none⟩, ⟨[], none⟩, ⟨[], none⟩]
    "720" ⟨"u", [], allAnimeRefr⟩ rfl (by decide)


/-! ## The provider ID cache (`providers/cache.go`)

The cache is an INI file with one section per provider and one key per media
id; values are `providerID|title|timestamp` triples. The in-memory store is
modelled as an association list keyed by (section, key); the synchronous
file write of `SaveProviderMapping` does not affect the in-process
round-trip and is not modelled. -/

structure DateTime where
  year : Nat
  month : Nat
  day : Nat
  hour : Nat
  minute : Nat
  second : Nat
deriving DecidableEq

def isLeapYear (y : Nat) : Bool :=
  y % 4 = 0 && (y % 100 ≠ 0 || y % 400 = 0)

def daysInMonth (y m : Nat) : Nat :=
  if m = 2 then (if isLeapYear y then 29 else 28)
  else if m = 4 ∨ m = 6 ∨ m = 9 ∨ m = 11 then 30
  else 31

/-- The wall-clock values `time.Now().UTC()` can produce (and that Go's
`time.Parse` accepts back). -/
def ValidDateTime (t : DateTime) : Prop :=
  t.year ≤ 9999 ∧ 1 ≤ t.month ∧ t.month ≤ 12 ∧ 1 ≤ t.day ∧
  t.day ≤ daysInMonth t.year t.month ∧ t.hour ≤ 23 ∧ t.minute ≤ 59 ∧
  t.second ≤ 59

instance (t : DateTime) : Decidable (ValidDateTime t) :=
  inferInstanceAs (Decidable (_ ∧ _ ∧ _ ∧ _ ∧ _ ∧ _ ∧ _ ∧ _))

def digitVal (c : Char) : Nat := c.toNat - '0'.toNat

/-- Models `time.Time.Format(time.RFC3339)` for a UTC wall-clock time:
`YYYY-MM-DDTHH:MM:SSZ` with zero-padded fields. -/
def rfc3339Chars (t : DateTime) : List Char :=
  [Nat.digitChar (t.year / 1000), Nat.digitChar (t.year / 100 % 10),
   Nat.digitChar (t.year / 10 % 10), Nat.digitChar (t.year % 10), '-',
   Nat.digitChar (t.month / 10), Nat.digitChar (t.month % 10), '-',
   Nat.digitChar (t.day / 10), Nat.digitChar (t.day % 10), 'T',
   Nat.digitChar (t.hour / 10), Nat.digitChar (t.hour % 10), ':',
   Nat.digitChar (t.minute / 10), Nat.digitChar (t.minute % 10), ':',
   Nat.digitChar (t.second / 10), Nat.digitChar (t.second % 10), 'Z']

/-- Field assembly and validation shared by the two timestamp layouts. -/
def buildDT (y1 y2 y3 y4 m1 m2 d1 d2 h1 h2 n1 n2 s1 s2 : Char) :
    Option DateTime :=
  if [y1, y2, y3, y4, m1, m2, d1, d2, h1, h2, n1, n2, s1, s2].all Char.isDigit then
    if 1 ≤ 10 * digitVal m1 + digitVal m2 ∧ 10 * digitVal m1 + digitVal m2 ≤ 12 ∧
        1 ≤ 10 * digitVal d1 + digitVal d2 ∧
        10 * digitVal d1 + digitVal d2 ≤
          daysInMonth
            (1000 * digitVal y1 + 100 * digitVal y2 + 10 * digitVal y3 + digitVal y4)
            (10 * digitVal m1 + digitVal m2) ∧
        10 * digitVal h1 + digitVal h2 ≤ 23 ∧
        10 * digitVal n1 + digitVal n2 ≤ 59 ∧
        10 * digitVal s1 + digitVal s2 ≤ 59 then
      some ⟨1000 * digitVal y1 + 100 * digitVal y2 + 10 * digitVal y3 + digitVal y4,
            10 * digitVal m1 + digitVal m2, 10 * digitVal d1 + digitVal d2,
            10 * digitVal h1 + digitVal h2, 10 * digitVal n1 + digitVal n2,
            10 * digitVal s1 + digitVal s2⟩
    else none
  else none

/-- Models `time.Parse(time.RFC3339, s)` to the extent the cache depends on
it: the fixed `YYYY-MM-DDTHH:MM:SS` skeleton followed by `Z` or a `±hh:mm`
zone designator, with digit and calendar validation (fractional-second
forms are never produced by the cache writer and are not modelled; an
offset-zoned value keeps its wall-clock fields). -/
def parseRFC3339Chars (l : List Char) : Option DateTime :=
  match l with
  | [y1, y2, y3, y4, '-', m1, m2, '-', d1, d2, 'T',
     h1, h2, ':', n1, n2, ':', s1, s2, 'Z'] =>
    buildDT y1 y2 y3 y4 m1 m2 d1 d2 h1 h2 n1 n2 s1 s2
  | [y1, y2, y3, y4, '-', m1, m2, '-', d1, d2, 'T',
     h1, h2, ':', n1, n2, ':', s1, s2, zs, o1, o2, ':', o3, o4] =>
    if (zs = '+' ∨ zs = '-') ∧ [o1, o2, o3, o4].all Char.isDigit ∧
        10 * digitVal o1 + digitVal o2 ≤ 23 ∧
        10 * digitVal o3 + digitVal o4 ≤ 59 then
      buildDT y1 y2 y3 y4 m1 m2 d1 d2 h1 h2 n1 n2 s1 s2
    else none
  | _ => none

/-- Models `time.Parse("2006-01-02T15:04:05", s)`, the zone-less fallback
layout of `LoadProviderMapping`. -/
def parseLegacyChars (l : List Char) : Option DateTime :=
  match l with
  | [y1, y2, y3, y4, '-', m1, m2, '-', d1, d2, 'T',
     h1, h2, ':', n1, n2, ':', s1, s2] =>
    buildDT y1 y2 y3 y4 m1 m2 d1 d2 h1 h2 n1 n2 s1 s2
  | _ => none

theorem daysInMonth_le (y m : Nat) : daysInMonth y m ≤ 31 := by
  rw [daysInMonth]
  split
  · split <;> omega
  · split <;> omega

theorem isDigit_digitChar (n : Nat) (h : n < 10) :
    (Nat.digitChar n).isDigit = true := by
  interval_cases n <;> decide

theorem digitVal_digitChar (n : Nat) (h : n < 10) :
    digitVal (Nat.digitChar n) = n := by
  interval_cases n <;> decide

theorem digitChar_ne_pipe (n : Nat) (h : n < 10) : Nat.digitChar n ≠ '|' := by
  interval_cases n <;> decide

theorem parseRFC3339Chars_rfc3339Chars (t : DateTime) (h : ValidDateTime t) :
    parseRFC3339Chars (rfc3339Chars t) = some t := by
  obtain ⟨hy, hm1, hm2, hd1, hd2, hh, hmi, hs⟩ := h
  have hd31 : t.day ≤ 31 := le_trans hd2 (daysInMonth_le t.year t.month)
  have b1 : t.year / 1000 < 10 := by omega
  have b2 : t.year / 100 % 10 < 10 := by omega
  have b3 : t.year / 10 % 10 < 10 := by omega
  have b4 : t.year % 10 < 10 := by omega
  have b5 : t.month / 10 < 10 := by omega
  have b6 : t.month % 10 < 10 := by omega
  have b7 : t.day / 10 < 10 := by omega
  have b8 : t.day % 10 < 10 := by omega
  have b9 : t.hour / 10 < 10 := by omega
  have b10 : t.hour % 10 < 10 := by omega
  have b11 : t.minute / 10 < 10 := by omega
  have b12 : t.minute % 10 < 10 := by omega
  have b13 : t.second / 10 < 10 := by omega
  have b14 : t.second % 10 < 10 := by omega
  rw [rfc3339Chars]
  simp only [parseRFC3339Chars]
  rw [buildDT]
  rw [if_pos (by
    simp [isDigit_digitChar _ b1, isDigit_digitChar _ b2, isDigit_digitChar _ b3,
      isDigit_digitChar _ b4, isDigit_digitChar _ b5, isDigit_digitChar _ b6,
      isDigit_digitChar _ b7, isDigit_digitChar _ b8, isDigit_digitChar _ b9,
      isDigit_digitChar _ b10, isDigit_digitChar _ b11, isDigit_digitChar _ b12,
      isDigit_digitChar _ b13, isDigit_digitChar _ b14])]
  rw [digitVal_digitChar _ b1, digitVal_digitChar _ b2, digitVal_digitChar _ b3,
    digitVal_digitChar _ b4, digitVal_digitChar _ b5, digitVal_digitChar _ b6,
    digitVal_digitChar _ b7, digitVal_digitChar _ b8, digitVal_digitChar _ b9,
    digitVal_digitChar _ b10, digitVal_digitChar _ b11, digitVal_digitChar _ b12,
    digitVal_digitChar _ b13, digitVal_digitChar _ b14]
  have hyr : 1000 * (t.year / 1000) + 100 * (t.year / 100 % 10) +
      10 * (t.year / 10 % 10) + t.year % 10 = t.year := by omega
  have hmo : 10 * (t.month / 10) + t.month % 10 = t.month := by omega
  have hda : 10 * (t.day / 10) + t.day % 10 = t.day := by omega
  have hho : 10 * (t.hour / 10) + t.hour % 10 = t.hour := by omega
  have hmin : 10 * (t.minute / 10) + t.minute % 10 = t.minute := by omega
  have hsec : 10 * (t.second / 10) + t.second % 10 = t.second := by omega
  rw [hyr, hmo, hda, hho, hmin, hsec]
  rw [if_pos ⟨hm1, hm2, hd1, hd2, hh, hmi, hs⟩]

theorem pipe_not_mem_rfc3339Chars (t : DateTime) (h : ValidDateTime t) :
    '|' ∉ rfc3339Chars t := by
  obtain ⟨hy, hm1, hm2, hd1, hd2, hh, hmi, hs⟩ := h
  have hd31 : t.day ≤ 31 := le_trans hd2 (daysInMonth_le t.year t.month)
  intro hm
  simp only [rfc3339Chars, List.mem_cons, List.not_mem_nil, or_false] at hm
  rcases hm with h0 | h0 | h0 | h0 | h0 | h0 | h0 | h0 | h0 | h0 | h0 | h0 |
    h0 | h0 | h0 | h0 | h0 | h0 | h0 | h0 <;>
    first
      | exact absurd h0 (by decide)
      | exact digitChar_ne_pipe _ (by omega) h0.symm

/-! ### The cache store -/

abbrev CacheStore := List ((List Char × List Char) × List Char)

/-- `fmt.Sprintf("%d", mediaID)` for the cache key. -/
def natChars (n : Nat) : List Char := (Nat.repr n).data

structure ProviderCacheEntry where
  providerID : List Char
  title : List Char
  lastUsed : DateTime
deriving DecidableEq

/-- The two error sites of `LoadProviderMapping`
("invalid cache entry format" and "invalid timestamp format"). -/
inductive CacheErr : Type
  | invalidFormat
  | invalidTimestamp
deriving DecidableEq

/-- Go `strings.Split(value, "|")` for the single-character delimiter. -/
def splitOnPipe : List Char → List (List Char)
  | [] => [[]]
  | c :: rest =>
    if c = '|' then [] :: splitOnPipe rest
    else
      match splitOnPipe rest with
      | [] => [[c]]
      | h :: tl => (c :: h) :: tl

/-- `SaveProviderMapping`: overwrite the `[provider] mediaID` row with
`providerID|title|timestamp`, the timestamp being `time.Now().UTC()`
formatted as RFC3339 (the wall-clock instant is the `now` parameter); the
synchronous file write is not modelled. -/
def saveProviderMapping (st : CacheStore) (provider : List Char) (mediaID : Nat)
    (providerID title : List Char) (now : DateTime) : CacheStore :=
  aupdate st (provider, natChars mediaID)
    (providerID ++ ('|' :: (title ++ ('|' :: rfc3339Chars now))))

/-- `LoadProviderMapping`: a missing section or key — or an empty value,
which Go's `section.Key(key).String()` cannot distinguish from a missing
key — is reported as absent; a non-empty value must split on `|` into
exactly three fields, and its third field must parse as RFC3339 or as the
legacy zone-less layout. -/
def loadProviderMapping (st : CacheStore) (provider : List Char) (mediaID : Nat) :
    Except CacheErr (Option ProviderCacheEntry) :=
  let value := (alookup st (provider, natChars mediaID)).getD []
  if value = [] then .ok none
  else
    match splitOnPipe value with
    | [pid, ttl, ts] =>
      match parseRFC3339Chars ts with
      | some lastUsed => .ok (some ⟨pid, ttl, lastUsed⟩)
      | none =>
        match parseLegacyChars ts with
        | some lastUsed => .ok (some ⟨pid, ttl, lastUsed⟩)
        | none => .error .invalidTimestamp
    | _ => .error .invalidFormat

theorem splitOnPipe_no_pipe :
    ∀ (l : List Char), '|' ∉ l → splitOnPipe l = [l]
  | [], _ => rfl
  | c :: rest, h => by
    have hc : ¬(c = '|') := fun he => h (by simp [he])
    have h2 : '|' ∉ rest := fun hm => h (List.mem_cons_of_mem _ hm)
    rw [splitOnPipe, if_neg hc, splitOnPipe_no_pipe rest h2]

theorem splitOnPipe_append_pipe :
    ∀ (a rest : List Char), '|' ∉ a →
      splitOnPipe (a ++ ('|' :: rest)) = a :: splitOnPipe rest
  | [], rest, _ => by
    rw [List.nil_append, splitOnPipe, if_pos rfl]
  | c :: a2, rest, h => by
    have hc : ¬(c = '|') := fun he => h (by simp [he])
    have h2 : '|' ∉ a2 := fun hm => h (List.mem_cons_of_mem _ hm)
    rw [List.cons_append, splitOnPipe, if_neg hc,
      splitOnPipe_append_pipe a2 rest h2]

theorem splitOnPipe_segments_no_pipe :
    ∀ (l p : List Char), p ∈ splitOnPipe l → '|' ∉ p
  | [], p, h => by
    simp only [splitOnPipe, List.mem_singleton] at h
    simp [h]
  | c :: rest, p, h => by
    rw [splitOnPipe] at h
    by_cases hc : c = '|'
    · rw [if_pos hc] at h
      rcases List.mem_cons.mp h with h1 | h1
      · simp [h1]
      · exact splitOnPipe_segments_no_pipe rest p h1
    · rw [if_neg hc] at h
      cases hs : splitOnPipe rest with
      | nil =>
        rw [hs] at h
        simp only [List.mem_singleton] at h
        subst h
        simp only [List.mem_singleton]
        exact fun he => hc he.symm
      | cons hd tl =>
        rw [hs] at h
        rcases List.mem_cons.mp h with h1 | h1
        · subst h1
          intro hm
          rcases List.mem_cons.mp hm with h2 | h2
          · exact hc h2.symm
          · have hhd : hd ∈ splitOnPipe rest := by
              rw [hs]
              exact List.mem_cons_self _ _
            exact splitOnPipe_segments_no_pipe rest hd hhd h2
        · have hp2 : p ∈ splitOnPipe rest := by
            rw [hs]
            exact List.mem_cons_of_mem _ h1
          exact splitOnPipe_segments_no_pipe rest p hp2

/-- Any entry `LoadProviderMapping` returns has a pipe-free internal id: the
id is the first field of the row split on the pipe delimiter. -/
theorem loadProviderMapping_providerID_no_pipe (st : CacheStore) (p : List Char)
    (m : Nat) (e : ProviderCacheEntry)
    (h : loadProviderMapping st p m = .ok (some e)) : '|' ∉ e.providerID := by
  simp only [loadProviderMapping] at h
  by_cases hv : (alookup st (p, natChars m)).getD [] = []
  · rw [if_pos hv] at h
    simp at h
  · rw [if_neg hv] at h
    rcases hps : splitOnPipe ((alookup st (p, natChars m)).getD []) with
      _ | ⟨a, _ | ⟨b, _ | ⟨c2, _ | ⟨d, rest4⟩⟩⟩⟩
    · rw [hps] at h
      simp at h
    · rw [hps] at h
      simp at h
    · rw [hps] at h
      simp at h
    · rw [hps] at h
      dsimp only at h
      have hmem : a ∈ splitOnPipe ((alookup st (p, natChars m)).getD []) := by
        rw [hps]
        exact List.mem_cons_self _ _
      have hnp : '|' ∉ a := splitOnPipe_segments_no_pipe _ a hmem
      cases hp1 : parseRFC3339Chars c2 with
      | some lu =>
        rw [hp1] at h
        dsimp only at h
        obtain rfl : (⟨a, b, lu⟩ : ProviderCacheEntry) = e := by simpa using h
        exact hnp
      | none =>
        rw [hp1] at h
        dsimp only at h
        cases hp2 : parseLegacyChars c2 with
        | some lu =>
          rw [hp2] at h
          dsimp only at h
          obtain rfl : (⟨a, b, lu⟩ : ProviderCacheEntry) = e := by simpa using h
          exact hnp
        | none =>
          rw [hp2] at h
          dsimp only at h
          simp at h
    · rw [hps] at h
      simp at h

/-- C7 amended: for every provider, media id, internal id and title in which
the pipe delimiter does not occur, Save followed by Load returns a present
entry with exactly the saved internal id and title, and a timestamp that
parses back to the very wall-clock instant stamped (in UTC) at save time.
(The unamended claim fails when the id or title contains `|`.) -/
theorem cache_round_trip_C7 (st : CacheStore) (p : List Char) (m : Nat)
    (s ttl : List Char) (now : DateTime)
    (hs : '|' ∉ s) (ht : '|' ∉ ttl) (hnow : ValidDateTime now) :
    loadProviderMapping (saveProviderMapping st p m s ttl now) p m =
      .ok (some ⟨s, ttl, now⟩) := by
  rw [saveProviderMapping, loadProviderMapping]
  simp only [alookup_aupdate_self, Option.getD_some]
  rw [if_neg (by simp)]
  rw [splitOnPipe_append_pipe s _ hs, splitOnPipe_append_pipe ttl _ ht,
    splitOnPipe_no_pipe _ (pipe_not_mem_rfc3339Chars now hnow)]
  dsimp only
  rw [parseRFC3339Chars_rfc3339Chars now hnow]

theorem cache_round_trip_C7_witness :
    loadProviderMapping
      (saveProviderMapping [] "p".data 123 "abc".data "Title".data
        ⟨2024, 1, 2, 3, 4, 5⟩) "p".data 123 =
      .ok (some ⟨"abc".data, "Title".data, ⟨2024, 1, 2, 3, 4, 5⟩⟩) :=
  cache_round_trip_C7 [] "p".data 123 "abc".data "Title".data
    ⟨2024, 1, 2, 3, 4, 5⟩ (by decide) (by decide) (by decide)

/-- C7 counterexample: saving a title that contains the pipe delimiter
(`a|b`) produces a four-field row, so the immediately following load fails
with InvalidFormat instead of returning the saved entry — refuting the
round-trip claim for arbitrary titles. -/
theorem cache_round_trip_C7_counterexample :
    loadProviderMapping
      (saveProviderMapping [] "p".data 123 "abc".data "a|b".data
        ⟨2024, 1, 2, 3, 4, 5⟩) "p".data 123 = .error .invalidFormat := by
  decide

/-- C8 amended: for every stored row whose value is NON-EMPTY and does not
split into exactly three pipe-delimited fields, Load returns the
InvalidFormat error (no panic, no default entry). The unamended claim fails
only for a stored row with an empty value, which Load reports as absent. -/
theorem cache_invalid_format_C8 (st : CacheStore) (p : List Char) (m : Nat)
    (v : List Char)
    (hrow : alookup st (p, natChars m) = some v)
    (hv : v ≠ [])
    (hsplit : (splitOnPipe v).length ≠ 3) :
    loadProviderMapping st p m = .error .invalidFormat := by
  rw [loadProviderMapping]
  simp only [hrow, Option.getD_some]
  rw [if_neg hv]
  rcases hps : splitOnPipe v with _ | ⟨a, _ | ⟨b, _ | ⟨c, _ | ⟨d, tl⟩⟩⟩⟩
  · rfl
  · rfl
  · rfl
  · exact absurd (by rw [hps]; rfl) hsplit
  · rfl

theorem cache_invalid_format_C8_witness :
    loadProviderMapping [(("p".data, natChars 7), "abc|T".data)] "p".data 7 =
      .error .invalidFormat :=
  cache_invalid_format_C8 [(("p".data, natChars 7), "abc|T".data)] "p".data 7
    "abc|T".data (by decide) (by decide) (by decide)

/-- C8 counterexample: a stored row whose value is empty does not split into
three fields (it splits into one), yet Load reports it as an ABSENT entry
(`nil, nil`) rather than failing with InvalidFormat — Go's
`section.Key(key).String()` cannot distinguish an empty value from a
missing key. -/
theorem cache_invalid_format_C8_counterexample :
    alookup [(("p".data, natChars 123), ([] : List Char))]
        ("p".data, natChars 123) = some [] ∧
    (splitOnPipe []).length = 1 ∧
    loadProviderMapping [(("p".data, natChars 123), [])] "p".data 123 =
      .ok none := by
  refine ⟨by decide, by decide, by decide⟩


/-! ## Provider episode resolution (`GetEpisodeInfo`) and the ID cache

`AniWorldProvider.GetEpisodeInfo` fetches the mal-backup title json and
extracts a title, then consults the ID cache (`LoadProviderMapping
("aniworld", mediaID)`); on a hit (no error, entry present) it returns the
cached anime link as the episode id without searching; otherwise it POSTs
the aniworld search, takes the first parsed result, saves its link to the
cache (ignoring the save error) and returns it.
`HDRezkaProvider.GetEpisodeInfo` has the same shape (backup fetch, title
extraction, cache check, search, save); its hit branch additionally requires
the cached id to split into two pipe-delimited fields
(`"mediaType|episodeID"`), and it saves that composite value on search
success.
`AllAnimeProvider.GetEpisodeInfo` contains no cache access at all: it always
issues the GraphQL search and uses the first result edge. -/

/-- The upstream calls a `GetEpisodeInfo` run can issue, in order. -/
inductive NetCall : Type
  | fetchBackup
  | searchAniworld
  | searchAllAnime
  | searchHdrezka
deriving DecidableEq

/-- `providers.EpisodeInfo` (strings as `List Char`; the Go zero value `""`
becomes `[]`). -/
structure EpisodeInfo where
  episodeID : List Char
  episodeTitle : List Char
  mediaType : List Char
  showID : List Char
deriving DecidableEq

/-- Error outcomes of the modelled `GetEpisodeInfo` runs: transport or read
failures (message preserved), "title not found in backup", and the empty
search-result errors. -/
inductive ProvErr : Type
  | transport (msg : List Char)
  | titleNotFound
  | noResults
deriving DecidableEq

/-- `fmt.Sprintf("Episode %d", episodeNum)`. -/
def epTitleChars (n : Nat) : List Char := "Episode ".data ++ natChars n

/-- Go regexp whitespace (RE2): tab, newline, form feed, carriage return,
space. -/
def goSpace (c : Char) : Bool :=
  c = '\t' || c = '\n' || c = '\x0c' || c = '\r' || c = ' '

def titleLit : List Char := "\"title\":".data

/-- Try the Go title regexp anchored at the head of `l`: the literal
`"title":`, optional whitespace, an opening quote, a capture of non-quote
characters, and a mandatory closing quote. -/
def matchTitleAt (l : List Char) : Option (List Char) :=
  if titleLit.isPrefixOf l then
    match (l.drop titleLit.length).dropWhile goSpace with
    | '"' :: r =>
      if r.dropWhile (fun c => decide (c ≠ '"')) = [] then none
      else some (r.takeWhile (fun c => decide (c ≠ '"')))
    | _ => none
  else none

/-- First match of the title regexp over the body
(`regexp.FindStringSubmatch` is leftmost-first). -/
def findTitle : List Char → Option (List Char)
  | [] => none
  | c :: rest =>
    match matchTitleAt (c :: rest) with
    | some cap => some cap
    | none => findTitle rest

/-- One parsed aniworld search result (`{title, link}`). -/
structure AWResult where
  title : List Char
  link : List Char
deriving DecidableEq

/-- Network oracles for `AniWorldProvider.GetEpisodeInfo`: `backupBody` is
the outcome of the mal-backup fetch (transport and read errors as
`.error`); `searchOutcome` abstracts the aniworld search POST together with
its brace-split JSON parsing into the parsed result list (unparseable
fragments drop out of the list, as in the source loop). -/
structure AniWorldEnv where
  backupBody : Except (List Char) (List Char)
  searchOutcome : Except (List Char) (List AWResult)
deriving DecidableEq

def aniworldGetEpisodeInfo (env : AniWorldEnv) (st : CacheStore)
    (mediaID episodeNum : Nat) (title : List Char) (now : DateTime) :
    Except ProvErr EpisodeInfo × CacheStore × List NetCall :=
  match env.backupBody with
  | .error e => (.error (.transport e), st, [.fetchBackup])
  | .ok body =>
    match findTitle body with
    | none => (.error .titleNotFound, st, [.fetchBackup])
    | some _searchTitle =>
      match loadProviderMapping st "aniworld".data mediaID with
      | .ok (some cached) =>
        (.ok ⟨cached.providerID, epTitleChars episodeNum, [], []⟩, st,
         [.fetchBackup])
      | _ =>
        match env.searchOutcome with
        | .error e =>
          (.error (.transport e), st, [.fetchBackup, .searchAniworld])
        | .ok [] =>
          (.error .noResults, st, [.fetchBackup, .searchAniworld])
        | .ok (r :: _) =>
          (.ok ⟨r.link, epTitleChars episodeNum, [], []⟩,
           saveProviderMapping st "aniworld".data mediaID r.link title now,
           [.fetchBackup, .searchAniworld])

/-- One search edge of the AllAnime GraphQL response. -/
structure AAEdge where
  id : List Char
  name : List Char
deriving DecidableEq

/-- Network oracle for `AllAnimeProvider.GetEpisodeInfo`: the outcome of the
GraphQL shows search (transport, read and unmarshal errors as `.error`). -/
structure AllAnimeEnv where
  searchOutcome : Except (List Char) (List AAEdge)
deriving DecidableEq

def allAnimeGetEpisodeInfo (env : AllAnimeEnv) (st : CacheStore)
    (mediaID episodeNum : Nat) (title : List Char) :
    Except ProvErr EpisodeInfo × CacheStore × List NetCall :=
  match env.searchOutcome with
  | .error e => (.error (.transport e), st, [.searchAllAnime])
  | .ok [] => (.error .noResults, st, [.searchAllAnime])
  | .ok (edge :: _) =>
    (.ok ⟨natChars episodeNum, epTitleChars episodeNum, [], edge.id⟩, st,
     [.searchAllAnime])

/-- One match of the hdrezka search-result regexp: group 2 (the media type)
and groups 3 and 4, joined with a slash into the episode id. -/
structure HRMatch where
  mediaType : List Char
  dirSegment : List Char
  fileSegment : List Char
deriving DecidableEq

/-- Network oracles for `HDRezkaProvider.GetEpisodeInfo`: `backupBody` as for
aniworld; `searchOutcome` abstracts the hdrezka search GET together with its
result regexp (`.ok none` when the regexp finds no match, the
"no results found on hdrezka" case). -/
structure HDRezkaEnv where
  backupBody : Except (List Char) (List Char)
  searchOutcome : Except (List Char) (Option HRMatch)
deriving DecidableEq

/-- The search-and-save tail of `HDRezkaProvider.GetEpisodeInfo`, reached
when the cache yields no usable hit. -/
def hdrezkaSearch (env : HDRezkaEnv) (st : CacheStore)
    (mediaID episodeNum : Nat) (title : List Char) (now : DateTime) :
    Except ProvErr EpisodeInfo × CacheStore × List NetCall :=
  match env.searchOutcome with
  | .error e => (.error (.transport e), st, [.fetchBackup, .searchHdrezka])
  | .ok none => (.error .noResults, st, [.fetchBackup, .searchHdrezka])
  | .ok (some mr) =>
    (.ok ⟨mr.dirSegment ++ ('/' :: mr.fileSegment), epTitleChars episodeNum,
          mr.mediaType, []⟩,
     saveProviderMapping st "hdrezka".data mediaID
       (mr.mediaType ++ ('|' :: (mr.dirSegment ++ ('/' :: mr.fileSegment))))
       title now,
     [.fetchBackup, .searchHdrezka])

def hdrezkaGetEpisodeInfo (env : HDRezkaEnv) (st : CacheStore)
    (mediaID episodeNum : Nat) (title : List Char) (now : DateTime) :
    Except ProvErr EpisodeInfo × CacheStore × List NetCall :=
  match env.backupBody with
  | .error e => (.error (.transport e), st, [.fetchBackup])
  | .ok body =>
    match findTitle body with
    | none => (.error .titleNotFound, st, [.fetchBackup])
    | some _searchTitle =>
      match loadProviderMapping st "hdrezka".data mediaID with
      | .ok (some cached) =>
        match splitOnPipe cached.providerID with
        | [mt, eid] =>
          (.ok ⟨eid, epTitleChars episodeNum, mt, []⟩, st, [.fetchBackup])
        | _ => hdrezkaSearch env st mediaID episodeNum title now
      | _ => hdrezkaSearch env st mediaID episodeNum title now

theorem hdrezkaSearch_trace (env : HDRezkaEnv) (st : CacheStore)
    (mediaID episodeNum : Nat) (title : List Char) (now : DateTime) :
    (hdrezkaSearch env st mediaID episodeNum title now).2.2 =
      [NetCall.fetchBackup, NetCall.searchHdrezka] := by
  rcases env with ⟨bb, so⟩
  rcases so with e | om
  · rfl
  · rcases om with _ | mr
    · rfl
    · rfl

/-- The resolution attempt the orchestrator performs (`fetchAndPlayEpisode`):
`GetEpisodeInfo`, then on success `GetVideoLink`.
`AniWorldProvider.GetVideoLink` performs three page fetches with regex
extractions and contains no cache access; its network-dependent outcome is
the `videoOutcome` oracle. -/
def aniworldResolve (env : AniWorldEnv) (videoOutcome : Except ProvErr VideoData)
    (st : CacheStore) (mediaID episodeNum : Nat) (title : List Char)
    (now : DateTime) : Except ProvErr VideoData × CacheStore :=
  match aniworldGetEpisodeInfo env st mediaID episodeNum title now with
  | (.error e, st2, _) => (.error e, st2)
  | (.ok _, st2, _) =>
    match videoOutcome with
    | .error e => (.error e, st2)
    | .ok v => (.ok v, st2)

/-- C1 counterexample: with a valid cache entry present for (allanime, 5),
`AllAnimeProvider.GetEpisodeInfo` still issues its upstream search and
returns an `EpisodeInfo` built from the fresh search result
(`showID = "fresh"`), not from the cached internal id (`"abc"`) — refuting
the claim for the AllAnime provider. -/
theorem cache_short_circuit_C1_counterexample :
    loadProviderMapping
        [(("allanime".data, natChars 5), "abc|T|2024-01-02T03:04:05Z".data)]
        "allanime".data 5 =
      .ok (some ⟨"abc".data, "T".data, ⟨2024, 1, 2, 3, 4, 5⟩⟩) ∧
    allAnimeGetEpisodeInfo ⟨.ok [⟨"fresh".data, "Name".data⟩]⟩
        [(("allanime".data, natChars 5), "abc|T|2024-01-02T03:04:05Z".data)]
        5 1 "X".data =
      (.ok ⟨"1".data, "Episode 1".data, [], "fresh".data⟩,
       [(("allanime".data, natChars 5), "abc|T|2024-01-02T03:04:05Z".data)],
       [.searchAllAnime]) := by
  refine ⟨by decide, by decide⟩

/-- C1 amended: not every provider short-circuits on a present cache entry.
The AniWorld provider does: when its backup-title fetch and title extraction
succeed and the cache load returns an entry, `GetEpisodeInfo` performs no
aniworld search (the trace is the single backup fetch), leaves the store
untouched and returns an `EpisodeInfo` whose episode id is exactly the
cached internal id. The AllAnime provider never consults the cache and
issues its search unconditionally. The HDRezka provider consults the cache
after its backup fetch, but its hit branch requires the cached id to split
into two pipe-delimited fields, which the first field of a loaded
three-field row can never contain — so whenever its title extraction
succeeds it always proceeds to its search, cache entry or not. -/
theorem cache_short_circuit_C1 :
    (∀ (env : AniWorldEnv) (st : CacheStore) (mediaID episodeNum : Nat)
        (title body cap : List Char) (now : DateTime) (e : ProviderCacheEntry),
      env.backupBody = .ok body →
      findTitle body = some cap →
      loadProviderMapping st "aniworld".data mediaID = .ok (some e) →
      aniworldGetEpisodeInfo env st mediaID episodeNum title now =
        (.ok ⟨e.providerID, epTitleChars episodeNum, [], []⟩, st,
         [.fetchBackup])) ∧
    (∀ (env : AllAnimeEnv) (st : CacheStore) (mediaID episodeNum : Nat)
        (title : List Char),
      (allAnimeGetEpisodeInfo env st mediaID episodeNum title).2.2 =
        [NetCall.searchAllAnime]) ∧
    (∀ (env : HDRezkaEnv) (st : CacheStore) (mediaID episodeNum : Nat)
        (title body cap : List Char) (now : DateTime),
      env.backupBody = .ok body →
      findTitle body = some cap →
      (hdrezkaGetEpisodeInfo env st mediaID episodeNum title now).2.2 =
        [NetCall.fetchBackup, NetCall.searchHdrezka]) := by
  refine ⟨?_, ?_, ?_⟩
  · intro env st mediaID episodeNum title body cap now e h1 h2 h3
    rw [aniworldGetEpisodeInfo, h1]
    dsimp only
    rw [h2]
    dsimp only
    rw [h3]
  · intro env st mediaID episodeNum title
    rcases env with ⟨so⟩
    rcases so with e | l
    · rfl
    · rcases l with _ | ⟨edge, t⟩
      · rfl
      · rfl
  · intro env st mediaID episodeNum title body cap now h1 h2
    rw [hdrezkaGetEpisodeInfo, h1]
    dsimp only
    rw [h2]
    dsimp only
    cases hld : loadProviderMapping st "hdrezka".data mediaID with
    | error ce =>
      dsimp only
      exact hdrezkaSearch_trace env st mediaID episodeNum title now
    | ok oc =>
      cases oc with
      | none =>
        dsimp only
        exact hdrezkaSearch_trace env st mediaID episodeNum title now
      | some cached =>
        dsimp only
        rw [splitOnPipe_no_pipe cached.providerID
          (loadProviderMapping_providerID_no_pipe st "hdrezka".data mediaID
            cached hld)]
        dsimp only
        exact hdrezkaSearch_trace env st mediaID episodeNum title now

theorem cache_short_circuit_C1_witness :
    aniworldGetEpisodeInfo
        ⟨.ok "\"title\":\"X\"".data, .ok []⟩
        [(("aniworld".data, natChars 9), "link|T|2024-01-02T03:04:05Z".data)]
        9 2 "t".data ⟨2024, 1, 2, 3, 4, 5⟩ =
      (.ok ⟨"link".data, epTitleChars 2, [], []⟩,
       [(("aniworld".data, natChars 9), "link|T|2024-01-02T03:04:05Z".data)],
       [.fetchBackup]) ∧
    (hdrezkaGetEpisodeInfo ⟨.ok "\"title\":\"X\"".data, .ok none⟩
        [(("hdrezka".data, natChars 4), "pid|T|2024-01-02T03:04:05Z".data)]
        4 1 "t".data ⟨2024, 1, 2, 3, 4, 5⟩).2.2 =
      [NetCall.fetchBackup, NetCall.searchHdrezka] :=
  ⟨cache_short_circuit_C1.1
     ⟨.ok "\"title\":\"X\"".data, .ok []⟩
     [(("aniworld".data, natChars 9), "link|T|2024-01-02T03:04:05Z".data)]
     9 2 "t".data "\"title\":\"X\"".data "X".data ⟨2024, 1, 2, 3, 4, 5⟩
     ⟨"link".data, "T".data, ⟨2024, 1, 2, 3, 4, 5⟩⟩
     rfl (by decide) (by decide),
   cache_short_circuit_C1.2.2
     ⟨.ok "\"title\":\"X\"".data, .ok none⟩
     [(("hdrezka".data, natChars 4), "pid|T|2024-01-02T03:04:05Z".data)]
     4 1 "t".data "\"title\":\"X\"".data "X".data ⟨2024, 1, 2, 3, 4, 5⟩
     rfl (by decide)⟩

/-- C9 counterexample: with an empty cache, a resolution attempt whose
aniworld `GetEpisodeInfo` succeeds but whose `GetVideoLink` then fails
("episode not found") leaves the freshly written mapping in the cache: the
attempt failed, yet the cache state changed — refuting the claim that a
failed resolution leaves the cache unchanged. -/
theorem cache_write_before_video_C9_counterexample :
    aniworldResolve
        ⟨.ok "\"title\":\"X\"".data, .ok [⟨"T".data, "/anime/x".data⟩]⟩
        (.error (.transport "episode not found".data)) [] 5 1 "X".data
        ⟨2024, 1, 2, 3, 4, 5⟩ =
      (.error (.transport "episode not found".data),
       [(("aniworld".data, natChars 5),
         "/anime/x|X|2024-01-02T03:04:05Z".data)]) ∧
    [(("aniworld".data, natChars 5), "/anime/x|X|2024-01-02T03:04:05Z".data)] ≠
      ([] : CacheStore) := by
  refine ⟨by decide, by decide⟩

/-- C9 amended: the ID cache is written only by a fully successful id
resolution step: any `GetEpisodeInfo` failure leaves the store unchanged,
and the video-link step never touches the store — but a `GetVideoLink`
failure after a successful `GetEpisodeInfo` retains the mapping that step
already wrote (where the unamended claim fails). AllAnime never writes the
store at all. -/
theorem cache_unchanged_on_failure_C9 :
    (∀ (env : AniWorldEnv) (st : CacheStore) (mediaID episodeNum : Nat)
        (title : List Char) (now : DateTime) (e : ProvErr) (st2 : CacheStore)
        (tr : List NetCall),
      aniworldGetEpisodeInfo env st mediaID episodeNum title now =
        (.error e, st2, tr) → st2 = st) ∧
    (∀ (env : AniWorldEnv) (videoOutcome : Except ProvErr VideoData)
        (st : CacheStore) (mediaID episodeNum : Nat) (title : List Char)
        (now : DateTime),
      (aniworldResolve env videoOutcome st mediaID episodeNum title now).2 =
        (aniworldGetEpisodeInfo env st mediaID episodeNum title now).2.1) ∧
    (∀ (env : AllAnimeEnv) (st : CacheStore) (mediaID episodeNum : Nat)
        (title : List Char),
      (allAnimeGetEpisodeInfo env st mediaID episodeNum title).2.1 = st) := by
  refine ⟨?_, ?_, ?_⟩
  · intro env st mediaID episodeNum title now e st2 tr h
    rw [aniworldGetEpisodeInfo] at h
    iterate 4 all_goals try split at h
    all_goals
      first
        | (simp only [Prod.mk.injEq] at h; exact h.2.1.symm)
        | simp at h
  · intro env vo st mediaID episodeNum title now
    rcases heq : aniworldGetEpisodeInfo env st mediaID episodeNum title now with
      ⟨r, st2, tr⟩
    rw [aniworldResolve, heq]
    cases r with
    | error e => rfl
    | ok i => cases vo <;> rfl
  · intro env st mediaID episodeNum title
    rcases env with ⟨so⟩
    rcases so with e | l
    · rfl
    · rcases l with _ | ⟨edge, t⟩
      · rfl
      · rfl

theorem cache_unchanged_on_failure_C9_witness :
    aniworldGetEpisodeInfo ⟨.error "dial tcp".data, .ok []⟩
        [(("q".data, natChars 3), "a|b|c".data)] 1 1 [] ⟨2024, 1, 2, 3, 4, 5⟩ =
      (.error (.transport "dial tcp".data),
       [(("q".data, natChars 3), "a|b|c".data)], [.fetchBackup]) ∧
    [(("q".data, natChars 3), "a|b|c".data)] =
      [(("q".data, natChars 3), "a|b|c".data)] :=
  ⟨by decide,
   cache_unchanged_on_failure_C9.1 ⟨.error "dial tcp".data, .ok []⟩
     [(("q".data, natChars 3), "a|b|c".data)] 1 1 [] ⟨2024, 1, 2, 3, 4, 5⟩
     (.transport "dial tcp".data) [(("q".data, natChars 3), "a|b|c".data)]
     [.fetchBackup] (by decide)⟩


end Oni
